import Mathlib

/-!
Verification of the report export pipeline in ichnaea/data/export.py.

The Python source is shallowly embedded. CPython dictionaries become
insertion ordered association lists: lookup returns the first matching
entry, assignment replaces in place keeping the position, and otherwise
appends. Python None becomes an explicit null value, raised exceptions
become Except, and the domain model classes from ichnaea.models, which are
outside the exported source tree, stay parameters of the embedding or are
modelled from the specification where noted.
-/

namespace Ichnaea

/-- Insertion ordered dictionary lookup: first entry whose key matches. -/
def lookupA {K V : Type} [DecidableEq K] : List (K × V) → K → Option V
  | [], _ => none
  | (k', v) :: rest, k => if k' = k then some v else lookupA rest k

/-- Dictionary assignment: replace the value at the first occurrence of the
key, keeping its position, or append a new entry (CPython dict semantics). -/
def dictSet {K V : Type} [DecidableEq K] : List (K × V) → K → V → List (K × V)
  | [], k, v => [(k, v)]
  | (k', v') :: rest, k, v =>
      if k' = k then (k', v) :: rest else (k', v') :: dictSet rest k v

/-- Add v to the value held at key k, or start a new entry (scores dict). -/
def dictIncr {K : Type} [DecidableEq K] : List (K × Nat) → K → Nat → List (K × Nat)
  | [], k, v => [(k, v)]
  | (k', v') :: rest, k, v =>
      if k' = k then (k', v' + v) :: rest else (k', v') :: dictIncr rest k v

/-- Append one element to the list held at key k (defaultdict of list). -/
def dictAppend {K V : Type} [DecidableEq K] : List (K × List V) → K → V → List (K × List V)
  | [], k, x => [(k, [x])]
  | (k', xs) :: rest, k, x =>
      if k' = k then (k', xs ++ [x]) :: rest else (k', xs) :: dictAppend rest k x

/-- Extend the list held at key k by several elements (defaultdict of list). -/
def dictExtend {K V : Type} [DecidableEq K] : List (K × List V) → K → List V → List (K × List V)
  | [], k, xs => [(k, xs)]
  | (k', ys) :: rest, k, xs =>
      if k' = k then (k', ys ++ xs) :: rest else (k', ys) :: dictExtend rest k xs

/-- Python set add, modelled on an insertion ordered duplicate free list. -/
def setAdd {α : Type} [DecidableEq α] (s : List α) (x : α) : List α :=
  if x ∈ s then s else s ++ [x]

/-! ## InternalTransform -/

/-- A scalar JSON value as it appears in report fields. The null constructor
stands both for an explicit JSON null and for an absent key, since the
Python dict.get used throughout returns None for both. -/
inductive SVal where
  | null
  | num (n : Int)
  | str (s : String)
deriving DecidableEq, Repr

abbrev Entry := List (String × SVal)

/-- dict.get on an entry: the value at the key, or null when absent. -/
def entryGet (e : Entry) (k : String) : SVal :=
  match e.find? (fun p => p.1 == k) with
  | some p => p.2
  | none => SVal.null

/-- Python truthiness of a scalar value: None, 0 and the empty string are falsy. -/
def svalTruthy : SVal → Bool
  | SVal.null => false
  | SVal.num n => n != 0
  | SVal.str s => s != ""

/-- One element of a field map: a same named field or a source to target rename. -/
inductive FSpec where
  | same (s : String)
  | ren (source target : String)
deriving DecidableEq, Repr

/-- InternalTransform.position_map. -/
def position_map : List FSpec := [
  FSpec.ren "latitude" "lat",
  FSpec.ren "longitude" "lon",
  FSpec.same "accuracy",
  FSpec.same "altitude",
  FSpec.ren "altitudeAccuracy" "altitude_accuracy",
  FSpec.same "age",
  FSpec.same "heading",
  FSpec.same "pressure",
  FSpec.same "speed",
  FSpec.same "source"]

/-- InternalTransform.blue_map. -/
def blue_map : List FSpec := [
  FSpec.ren "macAddress" "mac",
  FSpec.same "age",
  FSpec.ren "signalStrength" "signal"]

/-- InternalTransform.cell_map. -/
def cell_map : List FSpec := [
  FSpec.ren "radioType" "radio",
  FSpec.ren "mobileCountryCode" "mcc",
  FSpec.ren "mobileNetworkCode" "mnc",
  FSpec.ren "locationAreaCode" "lac",
  FSpec.ren "cellId" "cid",
  FSpec.same "age",
  FSpec.same "asu",
  FSpec.ren "primaryScramblingCode" "psc",
  FSpec.same "serving",
  FSpec.ren "signalStrength" "signal",
  FSpec.ren "timingAdvance" "ta"]

/-- InternalTransform.wifi_map. -/
def wifi_map : List FSpec := [
  FSpec.ren "macAddress" "mac",
  FSpec.ren "radioType" "radio",
  FSpec.same "age",
  FSpec.same "channel",
  FSpec.same "frequency",
  FSpec.same "signalToNoiseRatio",
  FSpec.ren "signalStrength" "signal"]

/-- The target field name of a field map element. -/
def fspecTarget : FSpec → String
  | FSpec.same s => s
  | FSpec.ren _ target => target

/-- The source field name of a field map element. -/
def fspecSource : FSpec → String
  | FSpec.same s => s
  | FSpec.ren source _ => source

/-- The body of the loop in InternalTransform._map_dict: split the spec into
source and target, fetch the source value, copy it when it is not None. -/
def mapDictStep (item_source : Entry) (value : Entry) (spec : FSpec) : Entry :=
  let st := match spec with
    | FSpec.ren source target => (source, target)
    | FSpec.same source => (source, source)
  let source_value := entryGet item_source st.1
  if source_value ≠ SVal.null then value ++ [(st.2, source_value)] else value

/-- InternalTransform._map_dict: copy each mapped field whose source value is
present and not null to its target name. -/
def mapDict (item_source : Entry) (field_map : List FSpec) : Entry :=
  field_map.foldl (mapDictStep item_source) []

/-- The body of the loop in InternalTransform._parse_list: keep the mapped
element when it is non empty. -/
def parseListStep (field_map : List FSpec) (values : List Entry) (value_item : Entry) :
    List Entry :=
  let value := mapDict value_item field_map
  if value ≠ [] then values ++ [value] else values

/-- InternalTransform._parse_list: map every element and keep the non empty ones. -/
def parseList (items : List Entry) (field_map : List FSpec) : List Entry :=
  items.foldl (parseListStep field_map) []

/-- The external geosubmit v2 report consumed by InternalTransform. An absent
position object is modelled by the empty entry list and an absent timestamp
by null, matching dict.get together with Python truthiness. -/
structure ExternalReport where
  position : Entry
  timestamp : SVal
  bluetoothBeacons : List Entry
  cellTowers : List Entry
  wifiAccessPoints : List Entry
deriving DecidableEq, Repr

/-- The transform output: the inlined top level fields plus the blue, cell and
wifi lists. The dict keys blue, cell and wifi never collide with the top
level field names, so the split representation is faithful. -/
structure InternalReport where
  fields : Entry
  blue : List Entry
  cell : List Entry
  wifi : List Entry
deriving DecidableEq, Repr

/-- The empty dict returned for a report with no transmitter data. -/
def emptyInternal : InternalReport :=
  { fields := [], blue := [], cell := [], wifi := [] }

/-- InternalTransform.__call__. -/
def transformCall (item : ExternalReport) : InternalReport :=
  let posFields :=
    if item.position ≠ [] then mapDict item.position position_map else []
  let withTs :=
    if svalTruthy item.timestamp then posFields ++ [("timestamp", item.timestamp)]
    else posFields
  let blues := parseList item.bluetoothBeacons blue_map
  let cells := parseList item.cellTowers cell_map
  let wifis := parseList item.wifiAccessPoints wifi_map
  if blues ≠ [] ∨ cells ≠ [] ∨ wifis ≠ [] then
    { fields := withTs, blue := blues, cell := cells, wifi := wifis }
  else emptyInternal

/-- All key value pairs appearing anywhere in a transform output. -/
def outputPairs (r : InternalReport) : Entry :=
  r.fields ++ r.blue.flatten ++ r.cell.flatten ++ r.wifi.flatten

/-! ## BaseReportUploader retry loop -/

/-- Outcome of one call of the sink specific upload: success, an exception
on the retriable allowlist of the sink, or any other exception. -/
inductive AttemptResult where
  | ok
  | retriable
  | fatal
deriving DecidableEq, Repr

/-- BaseReportUploader._retries. -/
def _retries : Nat := 3

/-- BaseReportUploader._retry_wait, 1.0 seconds in the source; the sleep
durations it scales are whole numbers, so it is kept as a natural number. -/
def _retry_wait : Nat := 1

/-- One iteration of the retry loop in BaseReportUploader.__call__. The state
is (success, sleeps so far, done); done records the break after a success.
A retriable exception sets success to False and sleeps retry_wait times
(i squared plus 1) seconds; any other exception propagates (error). -/
def loopStep (upload : Nat → AttemptResult) (st : Bool × List Nat × Bool) (i : Nat) :
    Except String (Bool × List Nat × Bool) :=
  let (_, sleeps, done) := st
  if done then Except.ok st
  else
    match upload i with
    | AttemptResult.ok => Except.ok (true, sleeps, true)
    | AttemptResult.retriable =>
        Except.ok (false, sleeps ++ [_retry_wait * (i ^ 2 + 1)], false)
    | AttemptResult.fatal => Except.error "propagated"

/-- The retry loop of BaseReportUploader.__call__: for i in range(_retries).
An ok value means the call returns normally, carrying the final success
flag and the list of sleep durations; an error means an exception escaped. -/
def uploaderCall (upload : Nat → AttemptResult) : Except String (Bool × List Nat × Bool) :=
  (List.range _retries).foldlM (loopStep upload) (false, [], false)

/-- The re-arm decision at the end of __call__: apply_countdown runs iff the
call returned normally with success and the partition is ready again. -/
def uploaderRearm (upload : Nat → AttemptResult) (ready : Bool) : Bool :=
  match uploaderCall upload with
  | Except.ok (success, _, _) => success && ready
  | Except.error _ => false

/-! ## ExportQueue.configure_queue -/

/-- The concrete ExportQueue subclasses in the source. The base constructor
stands for the plain ExportQueue class used when no scheme matches. -/
inductive QueueKind where
  | base
  | dummy
  | https
  | internal
  | s3
deriving DecidableEq, Repr

/-- The uploader classes in the source. -/
inductive UploaderKind where
  | dummy
  | geosubmit
  | internal
  | s3
deriving DecidableEq, Repr

/-- The queue_types dict of ExportQueue.configure_queue. -/
def queue_types (scheme : String) : Option (QueueKind × UploaderKind) :=
  if scheme = "dummy" then some (QueueKind.dummy, UploaderKind.dummy)
  else if scheme = "http" then some (QueueKind.https, UploaderKind.geosubmit)
  else if scheme = "https" then some (QueueKind.https, UploaderKind.geosubmit)
  else if scheme = "internal" then some (QueueKind.internal, UploaderKind.internal)
  else if scheme = "s3" then some (QueueKind.s3, UploaderKind.s3)
  else none

/-- The class selection of ExportQueue.configure_queue: queue_types.get with
the default (cls, None), cls being the plain ExportQueue receiver. -/
def configure_queue_class (scheme : String) : QueueKind × Option UploaderKind :=
  match queue_types scheme with
  | some (klass, uploader_type) => (klass, some uploader_type)
  | none => (QueueKind.base, none)

/-! ## IncomingQueue distribution -/

/-- A value held in an ingress envelope: JSON null, a string, or an opaque
report payload (the dispatcher never looks inside the report). -/
inductive DVal where
  | null
  | str (s : String)
  | rep (n : Nat)
deriving DecidableEq, Repr

/-- Python truthiness of an envelope value. -/
def dvalTruthy : DVal → Bool
  | DVal.null => false
  | DVal.str s => s != ""
  | DVal.rep _ => true

/-- Membership of an envelope value in a tuple of strings, with Python
equality: None and report objects never equal a string. -/
def dvalInSkip (v : DVal) (keys : List String) : Bool :=
  match v with
  | DVal.str s => keys.contains s
  | _ => false

/-- An ingress item or a rebuilt envelope: a dict from field names to values. -/
abbrev Envelope := List (String × DVal)

/-- Subscript access item[k]: a KeyError when the key is absent. -/
def itemGet (item : Envelope) (k : String) : Except String DVal :=
  match item.find? (fun p => p.1 == k) with
  | some p => Except.ok p.2
  | none => Except.error ("KeyError: " ++ k)

/-- The configuration of one export queue as the dispatcher sees it. -/
structure QueueCfg where
  name : String
  kind : QueueKind
  skip_keys : List String
deriving DecidableEq, Repr

/-- ExportQueue.export_allowed. -/
def export_allowed (q : QueueCfg) (api_key : DVal) : Bool :=
  !(dvalInSkip api_key q.skip_keys)

/-- ExportQueue.queue_key and the S3ExportQueue override: the plain queue
returns its name; the S3 queue appends the api key, or no_key when the api
key is falsy. Concatenating a non string value would raise a TypeError. -/
def queue_key (q : QueueCfg) (api_key : DVal) : Except String String :=
  match q.kind with
  | QueueKind.s3 =>
      let api_key := if dvalTruthy api_key then api_key else DVal.str "no_key"
      match api_key with
      | DVal.str s => Except.ok (q.name ++ ":" ++ s)
      | _ => Except.error "TypeError"
  | _ => Except.ok q.name

/-- One iteration of the grouping loop of IncomingQueue.__call__: read the
api_key, nickname and report fields of the item (subscript access, raising
on a missing field) and append the rebuilt envelope to the group of its api
key. -/
def incomingGroupStep (grouped : List (DVal × List Envelope)) (item : Envelope) :
    Except String (List (DVal × List Envelope)) := do
  let api_key ← itemGet item "api_key"
  let nickname ← itemGet item "nickname"
  let report ← itemGet item "report"
  Except.ok (dictAppend grouped api_key
    [("api_key", api_key), ("nickname", nickname), ("report", report)])

/-- The grouping loop of IncomingQueue.__call__ over the dequeued items. -/
def groupIncoming (data : List Envelope) :
    Except String (List (DVal × List Envelope)) :=
  data.foldlM incomingGroupStep []

/-- The per queue body of the distribution loop of IncomingQueue.__call__:
when the group api key is allowed, record the enqueue of the group items
under the queue partition key. -/
def incomingEnqueueStep (kv : DVal × List Envelope)
    (out : List (QueueCfg × String × List Envelope)) (q : QueueCfg) :
    Except String (List (QueueCfg × String × List Envelope)) :=
  if export_allowed q kv.1 then do
    let qk ← queue_key q kv.1
    Except.ok (out ++ [(q, qk, kv.2)])
  else Except.ok out

/-- IncomingQueue.__call__ after the dequeue: distribute every group to every
export queue that allows its api key, under that queue's queue_key. The
result lists every enqueue performed, as (queue, queue_key, items). -/
def incomingCall (queues : List QueueCfg) (data : List Envelope) :
    Except String (List (QueueCfg × String × List Envelope)) := do
  let grouped ← groupIncoming data
  grouped.foldlM (fun out kv => queues.foldlM (incomingEnqueueStep kv) out) []

/-- The property claim C8 asserts of the performed enqueues: an envelope
whose stored api key is on the skip list of a queue never appears among the
items enqueued to any partition of that queue. -/
def skipHonoured (out : List (QueueCfg × String × List Envelope)) : Prop :=
  ∀ e ∈ out, ∀ env ∈ e.2.2, ∀ v, itemGet env "api_key" = Except.ok v →
    dvalInSkip v e.1.skip_keys = false

/-! ## InternalUploader

The sink processing relies on the domain model classes of ichnaea.models
(Report, BlueReport, BlueObservation, the shard classes, ...), which are not
part of the exported source tree. Their interface is kept as parameters of
the embedding: create returns an option (None on validation failure),
combine fuses general and specific data, and an observation exposes
unique_key, a better relation, a shard id and a JSON encoding, exactly the
members the source calls on them. -/

/-- Modelled from the spec: the interface of one transmitter family, i.e.
the triple (report_cls.create, obs_cls.combine, observation members) that
InternalUploader.process_report uses for one of blue, cell or wifi. -/
structure TypeModel (GR Item IR Obs K : Type) where
  create : Item → Option IR
  combine : GR → IR → Obs
  unique_key : Obs → K
  better : Obs → Obs → Bool
  shard_id : Obs → String
  to_json : Obs → String

/-- The internal form report handed to the sink: lat and lon (null when
missing) plus the three transmitter item lists; an absent list is the empty
list, matching dict.get truthiness. -/
structure SinkReport (Item : Type) where
  lat : Option Int
  lon : Option Int
  blue : List Item
  cell : List Item
  wifi : List Item
deriving DecidableEq, Repr

/-- Modelled from the spec: the whole model interface used by the sink;
report_create stands for Report.create, validating the top level report. -/
structure SinkModel (GR Item IR Obs K : Type) where
  report_create : SinkReport Item → Option GR
  blue : TypeModel GR Item IR Obs K
  cell : TypeModel GR Item IR Obs K
  wifi : TypeModel GR Item IR Obs K

/-- The body of the per item loop in InternalUploader.process_report: on a
failed create count the item malformed; otherwise combine into an
observation and store it under its unique key, unless an already held
observation with the same key is better. -/
def processTypeStep {GR Item IR Obs K : Type} [DecidableEq K]
    (tm : TypeModel GR Item IR Obs K) (report : GR)
    (acc : List (K × Obs) × Nat) (item : Item) : List (K × Obs) × Nat :=
  let (observations, malformed) := acc
  match tm.create item with
  | none => (observations, malformed + 1)
  | some item_report =>
      let item_obs := tm.combine report item_report
      let item_key := tm.unique_key item_obs
      let existing := lookupA observations item_key
      if (match existing with
          | some e => tm.better e item_obs
          | none => false) then
        (observations, malformed)
      else
        (dictSet observations item_key item_obs, malformed)

/-- The per transmitter type loop of InternalUploader.process_report over the
item list of one report, yielding the keyed observation dict and the
malformed count for that type. -/
def processType {GR Item IR Obs K : Type} [DecidableEq K]
    (tm : TypeModel GR Item IR Obs K) (report : GR) (items : List Item) :
    List (K × Obs) × Nat :=
  items.foldl (processTypeStep tm report) ([], 0)

/-- The observations of one report, one insertion ordered dict per type. -/
structure ObsResult (Obs K : Type) where
  blue : List (K × Obs)
  cell : List (K × Obs)
  wifi : List (K × Obs)

/-- The malformed observation counts of one report, one per type. -/
structure MalCount where
  blue : Nat
  cell : Nat
  wifi : Nat
deriving DecidableEq, Repr

/-- InternalUploader.process_report. When Report.create fails the source
returns a pair of empty dicts, which downstream reads as empty observation
lists and zero malformed counts. -/
def process_report {GR Item IR Obs K : Type} [DecidableEq K]
    (m : SinkModel GR Item IR Obs K) (data : SinkReport Item) :
    ObsResult Obs K × MalCount :=
  match m.report_create data with
  | none => ({ blue := [], cell := [], wifi := [] }, { blue := 0, cell := 0, wifi := 0 })
  | some report =>
      let b := processType m.blue report data.blue
      let c := processType m.cell report data.cell
      let w := processType m.wifi report data.wifi
      ({ blue := b.1, cell := c.1, wifi := w.1 },
       { blue := b.2, cell := c.2, wifi := w.2 })

/-- Per type upload and drop counters of InternalUploader.process_reports. -/
structure TypeCount where
  upload : Nat
  drop : Nat
deriving DecidableEq, Repr

/-- The running state of the report loop in InternalUploader.process_reports:
per type observation lists extended across reports, the malformed report
count, per type counters, and the set of positions. -/
structure ReportLoop (Obs : Type) where
  obs_blue : List Obs
  obs_cell : List Obs
  obs_wifi : List Obs
  malformed_reports : Nat
  count_blue : TypeCount
  count_cell : TypeCount
  count_wifi : TypeCount
  positions : List (Option Int × Option Int)

/-- One iteration of the report loop of InternalUploader.process_reports:
extend the per type lists with the report observations (dict values), bump
the upload and drop counters, and either record the position, when any type
produced data, or count the report malformed. -/
def reportStep {GR Item IR Obs K : Type} [DecidableEq K]
    (m : SinkModel GR Item IR Obs K) (st : ReportLoop Obs) (report : SinkReport Item) :
    ReportLoop Obs :=
  let (obs, malformed_obs) := process_report m report
  let blueVals := obs.blue.map Prod.snd
  let cellVals := obs.cell.map Prod.snd
  let wifiVals := obs.wifi.map Prod.snd
  let any_data := !blueVals.isEmpty || !cellVals.isEmpty || !wifiVals.isEmpty
  { obs_blue := st.obs_blue ++ blueVals
    obs_cell := st.obs_cell ++ cellVals
    obs_wifi := st.obs_wifi ++ wifiVals
    malformed_reports :=
      if any_data then st.malformed_reports else st.malformed_reports + 1
    count_blue := { upload := st.count_blue.upload + blueVals.length,
                    drop := st.count_blue.drop + malformed_obs.blue }
    count_cell := { upload := st.count_cell.upload + cellVals.length,
                    drop := st.count_cell.drop + malformed_obs.cell }
    count_wifi := { upload := st.count_wifi.upload + wifiVals.length,
                    drop := st.count_wifi.drop + malformed_obs.wifi }
    positions :=
      if any_data then setAdd st.positions (report.lat, report.lon) else st.positions }

/-- The sharding loop of InternalUploader.process_reports for one type: group
the collected observations by shard id, then extend the queue named by the
prefix and shard id with their JSON encodings. -/
def shardQueue {GR Item IR Obs K : Type}
    (tm : TypeModel GR Item IR Obs K) (qpre : String) (obsList : List Obs) :
    List (String × List String) :=
  if obsList.isEmpty then []
  else
    let sharded := obsList.foldl (fun d ob => dictAppend d (tm.shard_id ob) ob) []
    sharded.foldl
      (fun q sv => dictExtend q (qpre ++ sv.1) (sv.2.map tm.to_json))
      []

/-- The full result of InternalUploader.process_reports. -/
structure ReportsResult where
  queue_blue : List (String × List String)
  queue_cell : List (String × List String)
  queue_wifi : List (String × List String)
  malformed_reports : Nat
  count_blue : TypeCount
  count_cell : TypeCount
  count_wifi : TypeCount
  positions : List (Option Int × Option Int)
deriving DecidableEq, Repr

/-- InternalUploader.process_reports. The userid argument is accepted and
ignored as in the source. -/
def process_reports {GR Item IR Obs K : Type} [DecidableEq K]
    (m : SinkModel GR Item IR Obs K) (reports : List (SinkReport Item))
    (_userid : Option String) : ReportsResult :=
  let st := reports.foldl (reportStep m)
    { obs_blue := [], obs_cell := [], obs_wifi := []
      malformed_reports := 0
      count_blue := { upload := 0, drop := 0 }
      count_cell := { upload := 0, drop := 0 }
      count_wifi := { upload := 0, drop := 0 }
      positions := [] }
  { queue_blue := shardQueue m.blue "update_blue_" st.obs_blue
    queue_cell := shardQueue m.cell "update_cell_" st.obs_cell
    queue_wifi := shardQueue m.wifi "update_wifi_" st.obs_wifi
    malformed_reports := st.malformed_reports
    count_blue := st.count_blue
    count_cell := st.count_cell
    count_wifi := st.count_wifi
    positions := st.positions }

/-- InternalUploader.process_user. Modelled from the spec: the database maps
each nickname to a stable numeric userid, creating a row on first sight; the
stable id is represented by the nickname itself. The length window and the
truthiness guard are as in the source. -/
def process_user (nickname : Option String) : Option String :=
  match nickname with
  | none => none
  | some n =>
      if n ≠ "" ∧ 2 ≤ n.length ∧ n.length ≤ 128 then some n else none

/-- InternalUploader.process_score: the entries enqueued to update_score for
one userid, empty when the userid is missing or the count not positive. -/
def process_score (userid : Option String) (pos_count : Nat) : List (String × Nat) :=
  match userid with
  | none => []
  | some u => if pos_count ≤ 0 then [] else [(u, pos_count)]

/-- One surviving envelope inside InternalUploader._send, after the transform
produced a non empty report: api key, nickname, internal form report. -/
structure SinkItem (Item : Type) where
  api_key : Option String
  nickname : Option String
  report : SinkReport Item
deriving DecidableEq, Repr

/-- The groups dict of InternalUploader._send: surviving reports grouped by
the (api_key, nickname) pair, in insertion order. -/
def sendGroups {Item : Type} [DecidableEq Item] (items : List (SinkItem Item)) :
    List ((Option String × Option String) × List (SinkReport Item)) :=
  items.foldl
    (fun groups item => dictAppend groups (item.api_key, item.nickname) item.report)
    []

/-- The nicknames set collected in the parse loop of InternalUploader._send. -/
def nicknamesOf {Item : Type} [DecidableEq Item] (items : List (SinkItem Item)) :
    List (Option String) :=
  items.foldl (fun s item => setAdd s item.nickname) []

/-- One iteration of the user resolution loop of InternalUploader._send:
store the userid of the nickname and start its score at 0. -/
def initUsersScoresStep
    (acc : List (Option String × Option String) × List (Option String × Nat))
    (nickname : Option String) :
    List (Option String × Option String) × List (Option String × Nat) :=
  let userid := process_user nickname
  (dictSet acc.1 nickname userid, dictSet acc.2 userid 0)

/-- The users and scores initialisation loop of InternalUploader._send:
users maps each nickname to its userid and scores starts every userid at 0. -/
def initUsersScores (nicknames : List (Option String)) :
    List (Option String × Option String) × List (Option String × Nat) :=
  nicknames.foldl initUsersScoresStep ([], [])

/-- users.get(nickname): the stored userid, or None when the nickname is
absent from the dict (both a missing key and a stored None read as None). -/
def usersGet (users : List (Option String × Option String)) (n : Option String) :
    Option String :=
  match lookupA users n with
  | some u => u
  | none => none

/-- One iteration of the group loop of InternalUploader._send restricted to
the score state: look the nickname up in users, run process_reports and,
when a userid was resolved, credit it with the number of positions. -/
def sendScoresStep {GR Item IR Obs K : Type} [DecidableEq K]
    (m : SinkModel GR Item IR Obs K) (users : List (Option String × Option String))
    (scores : List (Option String × Nat))
    (g : (Option String × Option String) × List (SinkReport Item)) :
    List (Option String × Nat) :=
  let userid := usersGet users g.1.2
  let r := process_reports m g.2 userid
  match userid with
  | some u => dictIncr scores (some u) r.positions.length
  | none => scores

/-- The group loop of InternalUploader._send restricted to the score state:
for every (api_key, nickname) group run process_reports and, when the
nickname resolved to a userid, credit it with the number of positions. -/
def sendScores {GR Item IR Obs K : Type} [DecidableEq K] [DecidableEq Item]
    (m : SinkModel GR Item IR Obs K) (items : List (SinkItem Item)) :
    List (Option String × Nat) :=
  let us := initUsersScores (nicknamesOf items)
  (sendGroups items).foldl (sendScoresStep m us.1) us.2

/-- The score enqueue loop of InternalUploader._send: one process_score call
per scores entry, concatenating whatever each call enqueues to update_score. -/
def sendScoreQueue {GR Item IR Obs K : Type} [DecidableEq K] [DecidableEq Item]
    (m : SinkModel GR Item IR Obs K) (items : List (SinkItem Item)) :
    List (String × Nat) :=
  (sendScores m items).foldl (fun q p => q ++ process_score p.1 p.2) []

/-- The sum of the credited score values over the enqueued score entries. -/
def scoreSum (q : List (String × Nat)) : Nat := (q.map Prod.snd).sum

/-- The value a scores dict entry contributes to the enqueued total: its
count when it belongs to a userid, nothing for the None key. -/
def scoreVal (p : Option String × Nat) : Nat :=
  match p.1 with
  | some _ => p.2
  | none => 0

/-- The total credit held in a scores dict. -/
def creditSum (sc : List (Option String × Nat)) : Nat := (sc.map scoreVal).sum

/-- The credit a single group contributes under the code: when its nickname
resolves, the number of distinct positions among its valid reports. -/
def groupCredit {GR Item IR Obs K : Type} [DecidableEq K]
    (m : SinkModel GR Item IR Obs K)
    (g : (Option String × Option String) × List (SinkReport Item)) : Nat :=
  match process_user g.1.2 with
  | some _ => (process_reports m g.2 (process_user g.1.2)).positions.length
  | none => 0

/-- The count named by claim C2: reports whose processing produced at least
one valid observation and whose nickname passed the length window. -/
def c2ClaimCount {GR Item IR Obs K : Type} [DecidableEq K]
    (m : SinkModel GR Item IR Obs K) (items : List (SinkItem Item)) : Nat :=
  (items.filter
    (fun item =>
      (!(process_report m item.report).1.blue.isEmpty ||
       !(process_report m item.report).1.cell.isEmpty ||
       !(process_report m item.report).1.wifi.isEmpty) &&
      (process_user item.nickname).isSome)).length

/-! ## Concrete instances used in counterexamples and witnesses

A deliberately simple model: items are naturals, every item validates, the
observation is the item itself and also its own unique key, no observation
is ever better than another, and everything lands in shard 0. -/

def cexTM : TypeModel Unit Nat Nat Nat Nat :=
  { create := fun n => some n
    combine := fun _ n => n
    unique_key := fun n => n
    better := fun _ _ => false
    shard_id := fun _ => "0"
    to_json := fun n => toString n }

def cexModel : SinkModel Unit Nat Nat Nat Nat :=
  { report_create := fun _ => some ()
    blue := cexTM
    cell := cexTM
    wifi := cexTM }

/-- A report with one wifi transmitter, item 5, at position (0, 0). -/
def cexReport : SinkReport Nat :=
  { lat := some 0, lon := some 0, blue := [], cell := [], wifi := [5] }

/-! ## Dictionary lemmas -/

theorem lookupA_dictSet_self {K V : Type} [DecidableEq K] (d : List (K × V)) (k : K) (v : V) :
    lookupA (dictSet d k v) k = some v := by
  induction d with
  | nil => simp [dictSet, lookupA]
  | cons p rest ih =>
      obtain ⟨k1, v1⟩ := p
      by_cases h : k1 = k
      · simp [dictSet, lookupA, h]
      · simp [dictSet, lookupA, h, ih]

theorem lookupA_dictSet_ne {K V : Type} [DecidableEq K] (d : List (K × V)) (k k2 : K) (v : V)
    (h : k2 ≠ k) : lookupA (dictSet d k2 v) k = lookupA d k := by
  induction d with
  | nil => simp [dictSet, lookupA, h]
  | cons p rest ih =>
      obtain ⟨k1, v1⟩ := p
      by_cases h1 : k1 = k2
      · subst h1
        simp [dictSet, lookupA, h]
      · simp [dictSet, lookupA, h1, ih]

theorem lookupA_none_not_mem {K V : Type} [DecidableEq K] {d : List (K × V)} {k : K}
    (h : lookupA d k = none) : k ∉ d.map Prod.fst := by
  induction d with
  | nil => simp
  | cons p rest ih =>
      obtain ⟨k1, v1⟩ := p
      by_cases h1 : k1 = k
      · simp [lookupA, h1] at h
      · have h2 : lookupA rest k = none := by simpa [lookupA, h1] using h
        simp only [List.map_cons, List.mem_cons]
        push_neg
        exact ⟨fun e => h1 e.symm, ih h2⟩

theorem dictSet_keys_of_some {K V : Type} [DecidableEq K] {d : List (K × V)} {k : K} {w : V}
    (h : lookupA d k = some w) (v : V) :
    (dictSet d k v).map Prod.fst = d.map Prod.fst := by
  induction d with
  | nil => simp [lookupA] at h
  | cons p rest ih =>
      obtain ⟨k1, v1⟩ := p
      by_cases h1 : k1 = k
      · simp [dictSet, h1]
      · have h2 : lookupA rest k = some w := by simpa [lookupA, h1] using h
        simp [dictSet, h1, ih h2]

theorem dictSet_keys_of_none {K V : Type} [DecidableEq K] {d : List (K × V)} {k : K}
    (h : lookupA d k = none) (v : V) :
    (dictSet d k v).map Prod.fst = d.map Prod.fst ++ [k] := by
  induction d with
  | nil => simp [dictSet]
  | cons p rest ih =>
      obtain ⟨k1, v1⟩ := p
      by_cases h1 : k1 = k
      · simp [lookupA, h1] at h
      · have h2 : lookupA rest k = none := by simpa [lookupA, h1] using h
        simp [dictSet, h1, ih h2]

theorem dictSet_forall {K V : Type} [DecidableEq K] {P : K × V → Prop} {d : List (K × V)}
    {k : K} {v : V} (hd : ∀ p ∈ d, P p) (hk : P (k, v)) :
    ∀ p ∈ dictSet d k v, P p := by
  induction d with
  | nil => simpa [dictSet] using hk
  | cons q rest ih =>
      obtain ⟨k1, v1⟩ := q
      intro p hp
      by_cases h1 : k1 = k
      · subst h1
        simp only [dictSet, if_pos rfl] at hp
        cases hp with
        | head => exact hk
        | tail _ hm => exact hd p (List.mem_cons_of_mem _ hm)
      · simp only [dictSet, if_neg h1] at hp
        cases hp with
        | head => exact hd (k1, v1) (List.mem_cons_self _ _)
        | tail _ hm => exact ih (fun r hr => hd r (List.mem_cons_of_mem _ hr)) p hm

theorem exceptOkBind {ε α β : Type} (a : α) (f : α → Except ε β) :
    (Except.ok a >>= f : Except ε β) = f a := rfl

/-! ## Claim C7 -/

/-- C7: while the transmitter list of a single report is processed, a new
candidate observation whose unique key equals the key of an observation
already held keeps the held one iff existing.better(new) holds; otherwise,
ties and incomparable quality included, the new observation replaces it. -/
theorem dedup_step_keeps_better {GR Item IR Obs K : Type} [DecidableEq K]
    (tm : TypeModel GR Item IR Obs K) (report : GR)
    (d : List (K × Obs)) (mal : Nat) (item : Item) (ir : IR)
    (hcreate : tm.create item = some ir) (existing : Obs)
    (hlook : lookupA d (tm.unique_key (tm.combine report ir)) = some existing) :
    lookupA (processTypeStep tm report (d, mal) item).1
        (tm.unique_key (tm.combine report ir))
      = some (if tm.better existing (tm.combine report ir) then existing
              else tm.combine report ir) := by
  unfold processTypeStep
  rw [hcreate]
  simp only [hlook]
  by_cases hb : tm.better existing (tm.combine report ir)
  · simp [hb, hlook]
  · simp [hb, lookupA_dictSet_self]

/-- Witness for C7 at a concrete instance: key 5 is already held with
observation 99, the new observation is 5; better is constantly false, so the
new observation replaces the held one. -/
theorem dedup_step_keeps_better_witness :
    lookupA (processTypeStep cexTM () ([(5, 99)], 0) 5).1 5
      = some (if cexTM.better 99 5 then 99 else 5) :=
  dedup_step_keeps_better cexTM () [(5, 99)] 0 5 5 rfl 99 rfl

/-! ## Claim C9 -/

/-- C9: in the retry loop with retry_wait 1, a retriable failure at zero
based attempt i appends a sleep of retry_wait times (i squared plus 1)
seconds, and concretely the sleeps after failed attempts 0, 1 and 2 are 1, 2
and 5 seconds. -/
theorem retry_backoff :
    (∀ (upload : Nat → AttemptResult) (success : Bool) (sleeps : List Nat) (i : Nat),
        upload i = AttemptResult.retriable →
        loopStep upload (success, sleeps, false) i
          = Except.ok (false, sleeps ++ [_retry_wait * (i ^ 2 + 1)], false)) ∧
    uploaderCall (fun _ => AttemptResult.retriable)
      = Except.ok (false, [1, 2, 5], false) := by
  constructor
  · intro upload success sleeps i h
    simp [loopStep, h]
  · rfl

/-- Witness for C9: the sleep recorded after a retriable failure at attempt 0. -/
theorem retry_backoff_witness :
    loopStep (fun _ => AttemptResult.retriable) (false, [], false) 0
      = Except.ok (false, [_retry_wait * (0 ^ 2 + 1)], false) := by
  have h := retry_backoff.1 (fun _ => AttemptResult.retriable) false [] 0 rfl
  simpa using h

/-! ## Claim C3 -/

/-- C3 counterexample: a sink that raises a retriable exception on all three
attempts makes the uploader return normally, with success false and the
sleeps 1, 2, 5 taken; nothing is re-raised (the result is ok, not error) and
the job is not re-armed even with a ready partition. -/
theorem retry_exhaustion_counterexample :
    uploaderCall (fun _ => AttemptResult.retriable)
      = Except.ok (false, [1, 2, 5], false) ∧
    uploaderRearm (fun _ => AttemptResult.retriable) true = false :=
  ⟨rfl, rfl⟩

/-- C3 amended: when the sink raises a retriable exception on all 3 attempts
the uploader swallows the exceptions and returns normally after the retry
budget is exhausted; the already dequeued batch is dropped and the job is
not re-armed, but no failure is re-raised to the job supervisor (only a non
retriable exception propagates). -/
theorem retry_exhaustion_returns (upload : Nat → AttemptResult)
    (h : ∀ i, i < _retries → upload i = AttemptResult.retriable) (ready : Bool) :
    uploaderCall upload = Except.ok (false, [1, 2, 5], false) ∧
    uploaderRearm upload ready = false := by
  have h0 := h 0 (by decide)
  have h1 := h 1 (by decide)
  have h2 := h 2 (by decide)
  have e0 : loopStep upload (false, [], false) 0 = Except.ok (false, [1], false) := by
    simp [loopStep, h0, _retry_wait]
  have e1 : loopStep upload (false, [1], false) 1 = Except.ok (false, [1, 2], false) := by
    simp [loopStep, h1, _retry_wait]
  have e2 : loopStep upload (false, [1, 2], false) 2 = Except.ok (false, [1, 2, 5], false) := by
    simp [loopStep, h2, _retry_wait]
  have hc : uploaderCall upload = Except.ok (false, [1, 2, 5], false) := by
    unfold uploaderCall
    rw [show List.range _retries = [0, 1, 2] from rfl]
    simp only [List.foldlM, e0, exceptOkBind, e1, e2]
    rfl
  refine ⟨hc, ?_⟩
  simp [uploaderRearm, hc]

/-- Witness for C3: the always retriable sink. -/
theorem retry_exhaustion_returns_witness :
    uploaderCall (fun _ => AttemptResult.retriable)
      = Except.ok (false, [1, 2, 5], false) ∧
    uploaderRearm (fun _ => AttemptResult.retriable) true = false :=
  retry_exhaustion_returns (fun _ => AttemptResult.retriable) (fun _ _ => rfl) true

/-! ## Claim C4 -/

/-- C4 counterexample: the empty scheme yields the plain base ExportQueue
class and no uploader, which is not the (DummyExportQueue, DummyUploader)
pair that the dummy scheme yields. -/
theorem configure_unknown_counterexample :
    configure_queue_class "" = (QueueKind.base, none) ∧
    configure_queue_class "dummy" = (QueueKind.dummy, some UploaderKind.dummy) ∧
    (QueueKind.base, (none : Option UploaderKind))
      ≠ (QueueKind.dummy, some UploaderKind.dummy) :=
  ⟨rfl, rfl, by decide⟩

/-- C4 amended: a URL whose scheme is empty or outside dummy, http, https,
s3, internal yields the plain base ExportQueue class with uploader type
None, not the dummy queue class and dummy uploader. -/
theorem configure_unknown_scheme (scheme : String)
    (h : scheme ∉ ["dummy", "http", "https", "internal", "s3"]) :
    configure_queue_class scheme = (QueueKind.base, none) := by
  simp only [List.mem_cons, List.mem_singleton, not_or] at h
  obtain ⟨h1, h2, h3, h4, h5⟩ := h
  simp [configure_queue_class, queue_types, h1, h2, h3, h4, h5]

/-- Witness for C4 at the scheme ftp. -/
theorem configure_unknown_scheme_witness :
    configure_queue_class "ftp" = (QueueKind.base, none) :=
  configure_unknown_scheme "ftp" (by decide)

/-! ## Claim C1 -/

/-- C1 counterexample: two reports of one internal sink batch each carry the
wifi item 5; each survives the per report dedup, so two observations with
the same (wifi, unique key 5) are enqueued to the downstream shard queue:
the encoded values on update_wifi_0 are 5 twice, more than one per key. -/
theorem batch_dedup_counterexample :
    (process_reports cexModel [cexReport, cexReport] none).queue_wifi
      = [("update_wifi_0", ["5", "5"])] ∧
    ¬((process_reports cexModel [cexReport, cexReport] none).queue_wifi.foldl
        (fun n sv => n + sv.2.count "5") 0 ≤ 1) :=
  ⟨by decide, by decide⟩

/-! ## Claim C2 -/

/-- C2 counterexample: two reports by the same recognised nickname at the
same position both produce valid observations; the batch enqueues a total
credited score of 1 (the number of distinct positions), not 2 (the number of
such reports). -/
theorem score_totality_counterexample :
    scoreSum (sendScoreQueue cexModel
      [{ api_key := some "A", nickname := some "alice", report := cexReport },
       { api_key := some "A", nickname := some "alice",
         report := { lat := some 0, lon := some 0, blue := [], cell := [], wifi := [6] } }]) = 1 ∧
    c2ClaimCount cexModel
      [{ api_key := some "A", nickname := some "alice", report := cexReport },
       { api_key := some "A", nickname := some "alice",
         report := { lat := some 0, lon := some 0, blue := [], cell := [], wifi := [6] } }] = 2 :=
  ⟨by decide, by decide⟩

/-! ## Claim C5 -/

/-- C5 counterexample: a report whose timestamp is the integer 0 and which
carries one surviving wifi entry; the transform output is non empty but has
no timestamp field, because the source guards the copy with truthiness. -/
theorem timestamp_zero_counterexample :
    transformCall
      { position := [], timestamp := SVal.num 0, bluetoothBeacons := [],
        cellTowers := [],
        wifiAccessPoints := [[("macAddress", SVal.str "aa:bb")]] }
      = { fields := [], blue := [], cell := [],
          wifi := [[("mac", SVal.str "aa:bb")]] } ∧
    entryGet (transformCall
      { position := [], timestamp := SVal.num 0, bluetoothBeacons := [],
        cellTowers := [],
        wifiAccessPoints := [[("macAddress", SVal.str "aa:bb")]] }).fields "timestamp"
      = SVal.null :=
  ⟨by decide, by decide⟩

/-! ## Claim C10 -/

/-- C10 counterexample: an ingress item without an api_key field raises a
KeyError in the dispatcher, so the batch is not distributed at all; the
claim does not hold for a missing (rather than null) api_key. -/
theorem missing_api_key_counterexample :
    incomingCall
      [{ name := "queue_export_s", kind := QueueKind.s3, skip_keys := [] }]
      [[("nickname", DVal.null), ("report", DVal.rep 0)]]
      = Except.error "KeyError: api_key" := rfl

/-- C10 amended: an ingress envelope whose api_key is null (the field being
present) is distributed: it forms its own group, export_allowed holds for
every queue because a skip tuple of strings never contains null, an object
store queue files it under the partition name:no_key, and the forwarded
envelope is rebuilt with exactly the api_key, nickname and report fields,
any extra fields of the ingress item discarded. An item missing the api_key
field instead raises a KeyError and nothing is distributed. -/
theorem null_api_key_distribution (name : String) (skip : List String)
    (nv rv : DVal) (extra : Envelope) :
    export_allowed { name := name, kind := QueueKind.s3, skip_keys := skip } DVal.null = true ∧
    incomingCall [{ name := name, kind := QueueKind.s3, skip_keys := skip }]
        [[("api_key", DVal.null), ("nickname", nv), ("report", rv)] ++ extra]
      = Except.ok [({ name := name, kind := QueueKind.s3, skip_keys := skip },
          name ++ ":" ++ "no_key",
          [[("api_key", DVal.null), ("nickname", nv), ("report", rv)]])] :=
  ⟨rfl, rfl⟩

/-- Witness for C10 at a concrete queue, nickname, report and extra field. -/
theorem null_api_key_distribution_witness :
    export_allowed { name := "queue_export_s", kind := QueueKind.s3, skip_keys := ["A"] }
        DVal.null = true ∧
    incomingCall [{ name := "queue_export_s", kind := QueueKind.s3, skip_keys := ["A"] }]
        [[("api_key", DVal.null), ("nickname", DVal.str "n"), ("report", DVal.rep 7)]
          ++ [("extra", DVal.str "x")]]
      = Except.ok [({ name := "queue_export_s", kind := QueueKind.s3, skip_keys := ["A"] },
          "queue_export_s" ++ ":" ++ "no_key",
          [[("api_key", DVal.null), ("nickname", DVal.str "n"), ("report", DVal.rep 7)]])] :=
  null_api_key_distribution "queue_export_s" ["A"] (DVal.str "n") (DVal.rep 7)
    [("extra", DVal.str "x")]



/-! ## Transform lemmas -/

theorem svalTruthy_ne_null {v : SVal} (h : svalTruthy v = true) : v ≠ SVal.null := by
  cases v with
  | null => simp [svalTruthy] at h
  | num n => simp
  | str s => simp

theorem mapDictStep_eq (src : Entry) (acc : Entry) (spec : FSpec) :
    mapDictStep src acc spec
      = if entryGet src (fspecSource spec) ≠ SVal.null
        then acc ++ [(fspecTarget spec, entryGet src (fspecSource spec))]
        else acc := by
  cases spec <;> rfl

theorem mapDict_mem {src : Entry} {fm : List FSpec} {p : String × SVal}
    (hp : p ∈ mapDict src fm) :
    p.2 ≠ SVal.null ∧ p.1 ∈ fm.map fspecTarget := by
  have aux : ∀ (fm : List FSpec) (acc : Entry) (p : String × SVal),
      p ∈ fm.foldl (mapDictStep src) acc →
      p ∈ acc ∨ (p.2 ≠ SVal.null ∧ p.1 ∈ fm.map fspecTarget) := by
    intro fm
    induction fm with
    | nil =>
        intro acc p hp
        exact Or.inl hp
    | cons spec fm ih =>
        intro acc p hp
        rw [List.foldl_cons] at hp
        rcases ih _ p hp with hacc | hgood
        · rw [mapDictStep_eq] at hacc
          by_cases hnn : entryGet src (fspecSource spec) ≠ SVal.null
          · rw [if_pos hnn] at hacc
            rcases List.mem_append.mp hacc with hl | hr
            · exact Or.inl hl
            · have hps : p = (fspecTarget spec, entryGet src (fspecSource spec)) := by
                simpa using hr
              subst hps
              exact Or.inr ⟨hnn, by simp⟩
          · rw [if_neg hnn] at hacc
            exact Or.inl hacc
        · exact Or.inr ⟨hgood.1, by simp [hgood.2]⟩
  rcases aux fm [] p hp with h | h
  · simp at h
  · exact h

theorem parseListStep_eq (fm : List FSpec) (acc : List Entry) (x : Entry) :
    parseListStep fm acc x
      = acc ++ (if mapDict x fm ≠ [] then [mapDict x fm] else []) := by
  by_cases hv : mapDict x fm ≠ []
  · simp [parseListStep, hv]
  · simp [parseListStep, hv]

theorem parseList_foldl (fm : List FSpec) :
    ∀ (items : List Entry) (acc : List Entry),
      items.foldl (parseListStep fm) acc = acc ++ parseList items fm := by
  intro items
  induction items with
  | nil =>
      intro acc
      simp [parseList]
  | cons x xs ih =>
      intro acc
      rw [List.foldl_cons, ih, parseListStep_eq]
      have hx : parseList (x :: xs) fm
          = (if mapDict x fm ≠ [] then [mapDict x fm] else []) ++ parseList xs fm := by
        show (x :: xs).foldl (parseListStep fm) [] = _
        rw [List.foldl_cons, ih, parseListStep_eq]
        simp
      rw [hx, List.append_assoc]

theorem parseList_cons (fm : List FSpec) (x : Entry) (xs : List Entry) :
    parseList (x :: xs) fm
      = (if mapDict x fm ≠ [] then [mapDict x fm] else []) ++ parseList xs fm := by
  show (x :: xs).foldl (parseListStep fm) [] = _
  rw [List.foldl_cons, parseList_foldl, parseListStep_eq]
  simp

theorem parseList_eq_nil (items : List Entry) (fm : List FSpec) :
    parseList items fm = [] ↔ ∀ e ∈ items, mapDict e fm = [] := by
  induction items with
  | nil => simp [parseList]
  | cons x xs ih =>
      rw [parseList_cons]
      by_cases hv : mapDict x fm ≠ []
      · simp [hv, ih]
      · have hm : mapDict x fm = [] := not_not.mp hv
        simp [hv, hm, ih]

theorem mem_parseList {items : List Entry} {fm : List FSpec} {v : Entry}
    (hv : v ∈ parseList items fm) : ∃ e ∈ items, v = mapDict e fm := by
  induction items with
  | nil => simp [parseList] at hv
  | cons x xs ih =>
      rw [parseList_cons] at hv
      rcases List.mem_append.mp hv with hl | hr
      · by_cases hm : mapDict x fm ≠ []
        · rw [if_pos hm] at hl
          have hve : v = mapDict x fm := by simpa using hl
          exact ⟨x, List.mem_cons_self _ _, hve⟩
        · rw [if_neg hm] at hl
          simp at hl
      · rcases ih hr with ⟨e, he, hve⟩
        exact ⟨e, List.mem_cons_of_mem _ he, hve⟩

/-- A normal form for the transform result, splitting the timestamp copy out
of the accumulated field list. -/
theorem transformCall_eq (r : ExternalReport) :
    transformCall r =
      if parseList r.bluetoothBeacons blue_map ≠ [] ∨
         parseList r.cellTowers cell_map ≠ [] ∨
         parseList r.wifiAccessPoints wifi_map ≠ [] then
        { fields :=
            (if r.position ≠ [] then mapDict r.position position_map else []) ++
              (if svalTruthy r.timestamp then [("timestamp", r.timestamp)] else []),
          blue := parseList r.bluetoothBeacons blue_map,
          cell := parseList r.cellTowers cell_map,
          wifi := parseList r.wifiAccessPoints wifi_map }
      else emptyInternal := by
  unfold transformCall
  by_cases ht : svalTruthy r.timestamp <;> simp [ht]

theorem entryGet_cons_of_ne {q : String × SVal} {e : Entry} {k : String} (h : q.1 ≠ k) :
    entryGet (q :: e) k = entryGet e k := by
  unfold entryGet
  rw [List.find?_cons_of_neg _ (by simp [h])]

theorem entryGet_append_of_not_mem {a b : Entry} {k : String}
    (h : ∀ p ∈ a, p.1 ≠ k) : entryGet (a ++ b) k = entryGet b k := by
  induction a with
  | nil => simp
  | cons q rest ih =>
      rw [List.cons_append, entryGet_cons_of_ne (h q (List.mem_cons_self _ _))]
      exact ih (fun p hp => h p (List.mem_cons_of_mem _ hp))

theorem entryGet_single_self (k : String) (v : SVal) : entryGet [(k, v)] k = v := by
  unfold entryGet
  rw [List.find?_cons_of_pos _ (by simp)]

/-- The iff half of claim C6, as a shared lemma. -/
theorem transform_empty_iff_aux (r : ExternalReport) :
    transformCall r = emptyInternal ↔
      ((∀ e ∈ r.bluetoothBeacons, mapDict e blue_map = []) ∧
       (∀ e ∈ r.cellTowers, mapDict e cell_map = []) ∧
       (∀ e ∈ r.wifiAccessPoints, mapDict e wifi_map = [])) := by
  constructor
  · intro he
    have h3 : parseList r.bluetoothBeacons blue_map = [] ∧
        parseList r.cellTowers cell_map = [] ∧
        parseList r.wifiAccessPoints wifi_map = [] := by
      by_contra hno
      have hc : parseList r.bluetoothBeacons blue_map ≠ [] ∨
          parseList r.cellTowers cell_map ≠ [] ∨
          parseList r.wifiAccessPoints wifi_map ≠ [] := by
        tauto
      rw [transformCall_eq, if_pos hc] at he
      have hb := congrArg InternalReport.blue he
      have hc2 := congrArg InternalReport.cell he
      have hw := congrArg InternalReport.wifi he
      simp [emptyInternal] at hb hc2 hw
      exact hno ⟨hb, hc2, hw⟩
    exact ⟨(parseList_eq_nil _ _).mp h3.1, (parseList_eq_nil _ _).mp h3.2.1,
           (parseList_eq_nil _ _).mp h3.2.2⟩
  · intro h3
    have hb := (parseList_eq_nil _ _).mpr h3.1
    have hc := (parseList_eq_nil _ _).mpr h3.2.1
    have hw := (parseList_eq_nil _ _).mpr h3.2.2
    rw [transformCall_eq, if_neg (by simp [hb, hc, hw])]

/-- The no null half of claim C6, as a shared lemma. -/
theorem transform_no_null_aux (r : ExternalReport) :
    ∀ p ∈ outputPairs (transformCall r), p.2 ≠ SVal.null := by
  intro p hp
  rw [transformCall_eq] at hp
  by_cases hc : parseList r.bluetoothBeacons blue_map ≠ [] ∨
      parseList r.cellTowers cell_map ≠ [] ∨
      parseList r.wifiAccessPoints wifi_map ≠ []
  · rw [if_pos hc] at hp
    simp only [outputPairs, List.mem_append] at hp
    rcases hp with ((hf | hf) | hf) | hf
    · rcases hf with hpos | hts
      · by_cases hpp : r.position ≠ []
        · rw [if_pos hpp] at hpos
          exact (mapDict_mem hpos).1
        · rw [if_neg hpp] at hpos
          simp at hpos
      · by_cases htt : svalTruthy r.timestamp
        · rw [if_pos htt] at hts
          have hpe : p = ("timestamp", r.timestamp) := by simpa using hts
          subst hpe
          exact svalTruthy_ne_null htt
        · rw [if_neg htt] at hts
          simp at hts
    · rcases List.mem_flatten.mp hf with ⟨l, hl, hpl⟩
      rcases mem_parseList hl with ⟨e, he, hle⟩
      subst hle
      exact (mapDict_mem hpl).1
    · rcases List.mem_flatten.mp hf with ⟨l, hl, hpl⟩
      rcases mem_parseList hl with ⟨e, he, hle⟩
      subst hle
      exact (mapDict_mem hpl).1
    · rcases List.mem_flatten.mp hf with ⟨l, hl, hpl⟩
      rcases mem_parseList hl with ⟨e, he, hle⟩
      subst hle
      exact (mapDict_mem hpl).1
  · rw [if_neg hc] at hp
    simp [outputPairs, emptyInternal] at hp

/-! ## Claim C6 -/

/-- C6: the transform returns the empty mapping iff the report contains no
blue, cell or wifi entry that survives its field map, where an entry
survives iff at least one of its mapped fields is present and non null; and
no output field anywhere in the result is written with a null value. -/
theorem transform_empty_iff_and_no_null (r : ExternalReport) :
    (transformCall r = emptyInternal ↔
      ((∀ e ∈ r.bluetoothBeacons, mapDict e blue_map = []) ∧
       (∀ e ∈ r.cellTowers, mapDict e cell_map = []) ∧
       (∀ e ∈ r.wifiAccessPoints, mapDict e wifi_map = []))) ∧
    (∀ p ∈ outputPairs (transformCall r), p.2 ≠ SVal.null) :=
  ⟨transform_empty_iff_aux r, transform_no_null_aux r⟩

/-- Witness for C6: a report whose only transmitter entry has a null mac
transforms to the empty mapping. -/
theorem transform_empty_iff_and_no_null_witness :
    transformCall
      { position := [], timestamp := SVal.null,
        bluetoothBeacons := [[("macAddress", SVal.null)]], cellTowers := [],
        wifiAccessPoints := [] } = emptyInternal :=
  (transform_empty_iff_and_no_null _).1.mpr (by decide)

/-! ## Claim C5, amended -/

/-- C5 amended: the transform passes an input timestamp through under the
key timestamp when the value is truthy (non null and non zero) and some
transmitter entry survives; the integer 0 and reports dropped as empty are
the exceptions the counterexample exhibits. -/
theorem timestamp_passthrough (r : ExternalReport)
    (ht : svalTruthy r.timestamp = true)
    (hs : parseList r.bluetoothBeacons blue_map ≠ [] ∨
          parseList r.cellTowers cell_map ≠ [] ∨
          parseList r.wifiAccessPoints wifi_map ≠ []) :
    entryGet (transformCall r).fields "timestamp" = r.timestamp := by
  have hkeys : ∀ p ∈ (if r.position ≠ [] then mapDict r.position position_map else []),
      p.1 ≠ "timestamp" := by
    intro p hp
    by_cases hpos : r.position ≠ []
    · rw [if_pos hpos] at hp
      have h2 := (mapDict_mem hp).2
      intro he
      rw [he] at h2
      revert h2
      decide
    · rw [if_neg hpos] at hp
      simp at hp
  rw [transformCall_eq, if_pos hs]
  simp only [ht, if_true]
  rw [entryGet_append_of_not_mem hkeys, entryGet_single_self]

/-- Witness for C5: a truthy timestamp on a report with a surviving wifi
entry appears unchanged in the output. -/
theorem timestamp_passthrough_witness :
    entryGet (transformCall
      { position := [], timestamp := SVal.num 1500000000000,
        bluetoothBeacons := [], cellTowers := [],
        wifiAccessPoints := [[("macAddress", SVal.str "aa:bb")]] }).fields "timestamp"
      = SVal.num 1500000000000 :=
  timestamp_passthrough _ (by decide) (by decide)


/-! ## Claim C1, amended -/

theorem processTypeStep_keys_nodup {GR Item IR Obs K : Type} [DecidableEq K]
    (tm : TypeModel GR Item IR Obs K) (report : GR)
    (observations : List (K × Obs)) (malformed : Nat) (item : Item)
    (h : (observations.map Prod.fst).Nodup) :
    (((processTypeStep tm report (observations, malformed) item)).1.map Prod.fst).Nodup := by
  unfold processTypeStep
  cases hc : tm.create item with
  | none => exact h
  | some ir =>
      dsimp only
      cases hl : lookupA observations (tm.unique_key (tm.combine report ir)) with
      | none =>
          rw [if_neg (by simp)]
          dsimp only
          rw [dictSet_keys_of_none hl]
          have hk := lookupA_none_not_mem hl
          simp [List.nodup_append, h, hk]
      | some e =>
          by_cases hb : tm.better e (tm.combine report ir)
          · rw [if_pos (by simp [hb])]
            exact h
          · rw [if_neg (by simp [hb])]
            dsimp only
            rw [dictSet_keys_of_some hl]
            exact h

theorem processType_keys_nodup {GR Item IR Obs K : Type} [DecidableEq K]
    (tm : TypeModel GR Item IR Obs K) (report : GR) (items : List Item) :
    ((processType tm report items).1.map Prod.fst).Nodup := by
  have aux : ∀ (items : List Item) (acc : List (K × Obs) × Nat),
      (acc.1.map Prod.fst).Nodup →
      ((items.foldl (processTypeStep tm report) acc).1.map Prod.fst).Nodup := by
    intro items
    induction items with
    | nil =>
        intro acc h
        exact h
    | cons x xs ih =>
        intro acc h
        rw [List.foldl_cons]
        exact ih _ (processTypeStep_keys_nodup tm report acc.1 acc.2 x h)
  exact aux items ([], 0) (by simp)

/-- C1 amended: within each single report of an internal sink batch, at most
one observation per (transmitter type, unique key) is retained and enqueued:
the per type observation dicts built by process_report carry pairwise
distinct unique keys. Across different reports of the same batch the lists
are merely concatenated, so observations sharing a unique key that come
from different reports are each enqueued (see the counterexample); the
retained one inside a report is settled by the better relation (claim C7). -/
theorem per_report_dedup {GR Item IR Obs K : Type} [DecidableEq K]
    (m : SinkModel GR Item IR Obs K) (data : SinkReport Item) :
    (((process_report m data).1.blue.map Prod.fst).Nodup) ∧
    (((process_report m data).1.cell.map Prod.fst).Nodup) ∧
    (((process_report m data).1.wifi.map Prod.fst).Nodup) := by
  unfold process_report
  cases m.report_create data with
  | none => simp
  | some report =>
      exact ⟨processType_keys_nodup m.blue report data.blue,
             processType_keys_nodup m.cell report data.cell,
             processType_keys_nodup m.wifi report data.wifi⟩

/-- Witness style instance for C1: the concrete model of the counterexample
also satisfies the per report form. -/
theorem per_report_dedup_witness :
    (((process_report cexModel cexReport).1.blue.map Prod.fst).Nodup) ∧
    (((process_report cexModel cexReport).1.cell.map Prod.fst).Nodup) ∧
    (((process_report cexModel cexReport).1.wifi.map Prod.fst).Nodup) :=
  per_report_dedup cexModel cexReport


/-! ## Claim C8 -/

theorem exceptErrorBind {ε α β : Type} (e : ε) (f : α → Except ε β) :
    (Except.error e >>= f : Except ε β) = Except.error e := rfl

theorem dictAppend_pres {K V : Type} [DecidableEq K] {P : K → V → Prop}
    {g : List (K × List V)} {k : K} {x : V}
    (hg : ∀ q ∈ g, ∀ w ∈ q.2, P q.1 w) (hx : P k x) :
    ∀ q ∈ dictAppend g k x, ∀ w ∈ q.2, P q.1 w := by
  induction g with
  | nil =>
      intro q hq w hw
      simp only [dictAppend, List.mem_singleton] at hq
      subst hq
      simp only [List.mem_singleton] at hw
      subst hw
      exact hx
  | cons p rest ih =>
      obtain ⟨k1, xs⟩ := p
      intro q hq w hw
      by_cases h1 : k1 = k
      · subst h1
        simp only [dictAppend, if_pos rfl] at hq
        cases hq with
        | head =>
            rcases List.mem_append.mp hw with hxs | hx1
            · exact hg (k1, xs) (List.mem_cons_self _ _) w hxs
            · have hwx : w = x := by simpa using hx1
              subst hwx
              exact hx
        | tail _ hm => exact hg q (List.mem_cons_of_mem _ hm) w hw
      · simp only [dictAppend, if_neg h1] at hq
        cases hq with
        | head => exact hg (k1, xs) (List.mem_cons_self _ _) w hw
        | tail _ hm =>
            exact ih (fun r hr => hg r (List.mem_cons_of_mem _ hr)) q hm w hw

theorem incomingGroupStep_ok {g g2 : List (DVal × List Envelope)} {item : Envelope}
    (hstep : incomingGroupStep g item = Except.ok g2)
    (hg : ∀ q ∈ g, ∀ env ∈ q.2, itemGet env "api_key" = Except.ok q.1) :
    ∀ q ∈ g2, ∀ env ∈ q.2, itemGet env "api_key" = Except.ok q.1 := by
  unfold incomingGroupStep at hstep
  cases ha : itemGet item "api_key" with
  | error e =>
      rw [ha, exceptErrorBind] at hstep
      simp at hstep
  | ok k =>
      rw [ha, exceptOkBind] at hstep
      cases hn : itemGet item "nickname" with
      | error e =>
          rw [hn, exceptErrorBind] at hstep
          simp at hstep
      | ok nk =>
          rw [hn, exceptOkBind] at hstep
          cases hr : itemGet item "report" with
          | error e =>
              rw [hr, exceptErrorBind] at hstep
              simp at hstep
          | ok rp =>
              rw [hr, exceptOkBind] at hstep
              have hg2 : g2 = dictAppend g k
                  [("api_key", k), ("nickname", nk), ("report", rp)] :=
                (Except.ok.inj hstep).symm
              subst hg2
              exact dictAppend_pres
                (P := fun kk env => itemGet env "api_key" = Except.ok kk) hg rfl

theorem groupIncoming_aux :
    ∀ (data : List Envelope) (g0 : List (DVal × List Envelope)),
      (∀ q ∈ g0, ∀ env ∈ q.2, itemGet env "api_key" = Except.ok q.1) →
      ∀ g, data.foldlM incomingGroupStep g0 = Except.ok g →
      ∀ q ∈ g, ∀ env ∈ q.2, itemGet env "api_key" = Except.ok q.1 := by
  intro data
  induction data with
  | nil =>
      intro g0 h0 g hg
      have he : g0 = g := Except.ok.inj hg
      subst he
      exact h0
  | cons x xs ih =>
      intro g0 h0 g hg
      simp only [List.foldlM] at hg
      cases hs : incomingGroupStep g0 x with
      | error e =>
          rw [hs, exceptErrorBind] at hg
          simp at hg
      | ok g1 =>
          rw [hs, exceptOkBind] at hg
          exact ih g1 (incomingGroupStep_ok hs h0) g hg

theorem enqueueStep_skip {kv : DVal × List Envelope}
    (hkv : ∀ env ∈ kv.2, itemGet env "api_key" = Except.ok kv.1)
    {out0 out : List (QueueCfg × String × List Envelope)} {q : QueueCfg}
    (hstep : incomingEnqueueStep kv out0 q = Except.ok out)
    (h0 : skipHonoured out0) : skipHonoured out := by
  unfold incomingEnqueueStep at hstep
  by_cases ha : export_allowed q kv.1 = true
  · rw [if_pos ha] at hstep
    cases hqk : queue_key q kv.1 with
    | error e =>
        rw [hqk, exceptErrorBind] at hstep
        simp at hstep
    | ok qk =>
        rw [hqk, exceptOkBind] at hstep
        have ho : out = out0 ++ [(q, qk, kv.2)] := (Except.ok.inj hstep).symm
        subst ho
        intro e he env henv v hv
        rcases List.mem_append.mp he with hm | hm
        · exact h0 e hm env henv v hv
        · have he2 : e = (q, qk, kv.2) := by simpa using hm
          subst he2
          have hk := hkv env henv
          rw [hv] at hk
          have hvk : v = kv.1 := Except.ok.inj hk
          subst hvk
          unfold export_allowed at ha
          simpa using ha
  · rw [if_neg ha] at hstep
    have ho : out0 = out := Except.ok.inj hstep
    subst ho
    exact h0

theorem enqueueFold_skip {kv : DVal × List Envelope}
    (hkv : ∀ env ∈ kv.2, itemGet env "api_key" = Except.ok kv.1) :
    ∀ (queues : List QueueCfg) (out0 : List (QueueCfg × String × List Envelope)),
      skipHonoured out0 →
      ∀ out, queues.foldlM (incomingEnqueueStep kv) out0 = Except.ok out →
      skipHonoured out := by
  intro queues
  induction queues with
  | nil =>
      intro out0 h0 out hout
      have he : out0 = out := Except.ok.inj hout
      subst he
      exact h0
  | cons q qs ih =>
      intro out0 h0 out hout
      simp only [List.foldlM] at hout
      cases hs : incomingEnqueueStep kv out0 q with
      | error e =>
          rw [hs, exceptErrorBind] at hout
          simp at hout
      | ok out1 =>
          rw [hs, exceptOkBind] at hout
          exact ih out1 (enqueueStep_skip hkv hs h0) out hout

theorem outerFold_skip (queues : List QueueCfg) :
    ∀ (grouped : List (DVal × List Envelope))
      (out0 : List (QueueCfg × String × List Envelope)),
      skipHonoured out0 →
      (∀ kv ∈ grouped, ∀ env ∈ kv.2, itemGet env "api_key" = Except.ok kv.1) →
      ∀ out,
        grouped.foldlM (fun out kv => queues.foldlM (incomingEnqueueStep kv) out) out0
          = Except.ok out →
      skipHonoured out := by
  intro grouped
  induction grouped with
  | nil =>
      intro out0 h0 hgrp out hout
      have he : out0 = out := Except.ok.inj hout
      subst he
      exact h0
  | cons kv kvs ih =>
      intro out0 h0 hgrp out hout
      simp only [List.foldlM] at hout
      cases hs : queues.foldlM (incomingEnqueueStep kv) out0 with
      | error e =>
          rw [hs, exceptErrorBind] at hout
          simp at hout
      | ok out1 =>
          rw [hs, exceptOkBind] at hout
          have h1 : skipHonoured out1 :=
            enqueueFold_skip (hgrp kv (List.mem_cons_self _ _)) queues out0 h0 out1 hs
          exact ih out1 h1 (fun kv2 hkv2 => hgrp kv2 (List.mem_cons_of_mem _ hkv2)) out hout

/-- C8: whenever a dispatcher run succeeds, no envelope whose api key is on
the skip list of an export queue is enqueued into any partition of that
queue: every performed enqueue pairs a queue only with envelopes whose
stored api key passes export_allowed for it. -/
theorem skip_list_honoured (queues : List QueueCfg) (data : List Envelope)
    (out : List (QueueCfg × String × List Envelope))
    (h : incomingCall queues data = Except.ok out) : skipHonoured out := by
  unfold incomingCall at h
  cases hg : groupIncoming data with
  | error e =>
      rw [hg, exceptErrorBind] at h
      simp at h
  | ok grouped =>
      rw [hg, exceptOkBind] at h
      have hgrp := groupIncoming_aux data [] (by simp) grouped hg
      exact outerFold_skip queues grouped [] (by simp [skipHonoured]) hgrp out h

/-- Witness for C8: a batch with one envelope under api key B distributed to
a queue that skips A; the theorem applied to the computed run yields that B
is not on the skip list. -/
theorem skip_list_honoured_witness :
    dvalInSkip (DVal.str "B") ["A"] = false := by
  have h := skip_list_honoured
    [{ name := "queue_export_q", kind := QueueKind.base, skip_keys := ["A"] }]
    [[("api_key", DVal.str "B"), ("nickname", DVal.null), ("report", DVal.rep 1)]]
    [({ name := "queue_export_q", kind := QueueKind.base, skip_keys := ["A"] },
      "queue_export_q",
      [[("api_key", DVal.str "B"), ("nickname", DVal.null), ("report", DVal.rep 1)]])]
    rfl
  exact h
    ({ name := "queue_export_q", kind := QueueKind.base, skip_keys := ["A"] },
      "queue_export_q",
      [[("api_key", DVal.str "B"), ("nickname", DVal.null), ("report", DVal.rep 1)]])
    (List.mem_singleton.mpr rfl)
    [("api_key", DVal.str "B"), ("nickname", DVal.null), ("report", DVal.rep 1)]
    (List.mem_singleton.mpr rfl)
    (DVal.str "B") rfl


/-! ## Claim C2, amended -/

theorem scoreSum_append (a b : List (String × Nat)) :
    scoreSum (a ++ b) = scoreSum a + scoreSum b := by
  simp [scoreSum]

theorem scoreSum_process_score (k : Option String) (v : Nat) :
    scoreSum (process_score k v) = scoreVal (k, v) := by
  cases k with
  | none => simp [process_score, scoreVal, scoreSum]
  | some u =>
      by_cases hv : v ≤ 0
      · have hv0 : v = 0 := Nat.le_zero.mp hv
        subst hv0
        simp [process_score, scoreVal, scoreSum]
      · simp [process_score, hv, scoreVal, scoreSum]

theorem creditSum_cons (p : Option String × Nat) (ps : List (Option String × Nat)) :
    creditSum (p :: ps) = scoreVal p + creditSum ps := by
  simp [creditSum]

theorem sendScoreQueue_eq_creditSum {GR Item IR Obs K : Type}
    [DecidableEq K] [DecidableEq Item]
    (m : SinkModel GR Item IR Obs K) (items : List (SinkItem Item)) :
    scoreSum (sendScoreQueue m items) = creditSum (sendScores m items) := by
  have aux : ∀ (sc : List (Option String × Nat)) (q0 : List (String × Nat)),
      scoreSum (sc.foldl (fun q p => q ++ process_score p.1 p.2) q0)
        = scoreSum q0 + creditSum sc := by
    intro sc
    induction sc with
    | nil =>
        intro q0
        simp [creditSum]
    | cons p ps ih =>
        intro q0
        obtain ⟨k, v⟩ := p
        rw [List.foldl_cons, ih, scoreSum_append, scoreSum_process_score, creditSum_cons]
        dsimp only
        omega
  unfold sendScoreQueue
  rw [aux]
  simp [scoreSum]

theorem creditSum_dictIncr_some (sc : List (Option String × Nat)) (u : String) (v : Nat) :
    creditSum (dictIncr sc (some u) v) = creditSum sc + v := by
  induction sc with
  | nil => simp [dictIncr, creditSum, scoreVal]
  | cons p ps ih =>
      obtain ⟨k1, v1⟩ := p
      by_cases h1 : k1 = some u
      · subst h1
        have hd : dictIncr ((some u, v1) :: ps) (some u) v = (some u, v1 + v) :: ps := by
          simp [dictIncr]
        rw [hd, creditSum_cons, creditSum_cons]
        show v1 + v + creditSum ps = v1 + creditSum ps + v
        omega
      · have hd : dictIncr ((k1, v1) :: ps) (some u) v
            = (k1, v1) :: dictIncr ps (some u) v := by
          simp [dictIncr, h1]
        rw [hd, creditSum_cons, creditSum_cons, ih]
        omega

theorem creditSum_zero {sc : List (Option String × Nat)} (h : ∀ p ∈ sc, p.2 = 0) :
    creditSum sc = 0 := by
  induction sc with
  | nil => simp [creditSum]
  | cons p ps ih =>
      have hp := h p (List.mem_cons_self _ _)
      have hv : scoreVal p = 0 := by
        unfold scoreVal
        cases hk : p.1 <;> simp [hp]
      have ht : creditSum ps = 0 := ih (fun q hq => h q (List.mem_cons_of_mem _ hq))
      rw [creditSum_cons, hv, ht]

theorem initUsersScores_scores_zero :
    ∀ (ns : List (Option String))
      (acc : List (Option String × Option String) × List (Option String × Nat)),
      (∀ p ∈ acc.2, p.2 = 0) →
      ∀ p ∈ (ns.foldl initUsersScoresStep acc).2, p.2 = 0 := by
  intro ns
  induction ns with
  | nil =>
      intro acc h
      exact h
  | cons n ns ih =>
      intro acc h
      rw [List.foldl_cons]
      exact ih _ (dictSet_forall (P := fun p => p.2 = 0) h rfl)

theorem lookupA_initUsers_of_not_mem :
    ∀ (ns : List (Option String))
      (acc : List (Option String × Option String) × List (Option String × Nat))
      (n : Option String), n ∉ ns →
      lookupA (ns.foldl initUsersScoresStep acc).1 n = lookupA acc.1 n := by
  intro ns
  induction ns with
  | nil =>
      intro acc n _
      rfl
  | cons m ms ih =>
      intro acc n hn
      rw [List.foldl_cons]
      have hnm : n ∉ ms := fun hm => hn (List.mem_cons_of_mem _ hm)
      rw [ih _ n hnm]
      have hne : m ≠ n := fun e => hn (e ▸ List.mem_cons_self _ _)
      exact lookupA_dictSet_ne acc.1 n m (process_user m) hne

theorem lookupA_initUsers_of_mem :
    ∀ (ns : List (Option String))
      (acc : List (Option String × Option String) × List (Option String × Nat))
      (n : Option String), n ∈ ns →
      lookupA (ns.foldl initUsersScoresStep acc).1 n = some (process_user n) := by
  intro ns
  induction ns with
  | nil =>
      intro acc n hn
      simp at hn
  | cons m ms ih =>
      intro acc n hn
      rw [List.foldl_cons]
      by_cases hm : n ∈ ms
      · exact ih _ n hm
      · have hnm : n = m := by
          rcases List.mem_cons.mp hn with he | he
          · exact he
          · exact absurd he hm
        subst hnm
        rw [lookupA_initUsers_of_not_mem ms _ n hm]
        exact lookupA_dictSet_self acc.1 n (process_user n)

theorem usersGet_init_of_mem (ns : List (Option String)) (n : Option String)
    (hn : n ∈ ns) :
    usersGet (initUsersScores ns).1 n = process_user n := by
  unfold usersGet initUsersScores
  rw [lookupA_initUsers_of_mem ns _ n hn]

theorem setAdd_mem {α : Type} [DecidableEq α] (s : List α) (x y : α)
    (h : x ∈ s ∨ x = y) : x ∈ setAdd s y := by
  unfold setAdd
  by_cases hy : y ∈ s
  · rw [if_pos hy]
    rcases h with h | h
    · exact h
    · exact h ▸ hy
  · rw [if_neg hy]
    rcases h with h | h
    · exact List.mem_append_left _ h
    · simp [h]

theorem mem_nicknamesOf_aux {Item : Type} [DecidableEq Item] :
    ∀ (items : List (SinkItem Item)) (s : List (Option String)) (x : Option String),
      x ∈ s ∨ (∃ it ∈ items, it.nickname = x) →
      x ∈ items.foldl (fun s item => setAdd s item.nickname) s := by
  intro items
  induction items with
  | nil =>
      intro s x h
      rcases h with h | ⟨it, hit, _⟩
      · exact h
      · simp at hit
  | cons it its ih =>
      intro s x h
      rw [List.foldl_cons]
      apply ih
      rcases h with h | ⟨jt, hjt, hx⟩
      · exact Or.inl (setAdd_mem _ _ _ (Or.inl h))
      · rcases List.mem_cons.mp hjt with he | he
        · subst he
          exact Or.inl (setAdd_mem _ _ _ (Or.inr hx.symm))
        · exact Or.inr ⟨jt, he, hx⟩

theorem mem_map_fst_dictAppend {K V : Type} [DecidableEq K] {g : List (K × List V)}
    {k : K} {x : V} {y : K} (hy : y ∈ (dictAppend g k x).map Prod.fst) :
    y ∈ g.map Prod.fst ∨ y = k := by
  induction g with
  | nil =>
      simp [dictAppend] at hy
      exact Or.inr hy
  | cons p rest ih =>
      obtain ⟨k1, xs⟩ := p
      by_cases h1 : k1 = k
      · simp only [dictAppend, if_pos h1, List.map_cons, List.mem_cons] at hy
        rcases hy with h | h
        · exact Or.inl (by simp [h])
        · exact Or.inl (by simp [h])
      · simp only [dictAppend, if_neg h1, List.map_cons, List.mem_cons] at hy
        rcases hy with h | h
        · exact Or.inl (by simp [h])
        · rcases ih h with h2 | h2
          · exact Or.inl (by simp [h2])
          · exact Or.inr h2

theorem sendGroups_nickname_mem {Item : Type} [DecidableEq Item]
    (items : List (SinkItem Item)) :
    ∀ p ∈ sendGroups items, p.1.2 ∈ nicknamesOf items := by
  have aux : ∀ (items2 : List (SinkItem Item))
      (g0 : List ((Option String × Option String) × List (SinkReport Item))),
      ∀ p ∈ items2.foldl
          (fun groups item => dictAppend groups (item.api_key, item.nickname) item.report)
          g0,
        p.1 ∈ g0.map Prod.fst ∨ ∃ it ∈ items2, p.1 = (it.api_key, it.nickname) := by
    intro items2
    induction items2 with
    | nil =>
        intro g0 p hp
        exact Or.inl (List.mem_map_of_mem _ hp)
    | cons it its ih =>
        intro g0 p hp
        rw [List.foldl_cons] at hp
        rcases ih _ p hp with h | ⟨jt, hjt, he⟩
        · rcases mem_map_fst_dictAppend h with h2 | h2
          · exact Or.inl h2
          · exact Or.inr ⟨it, List.mem_cons_self _ _, h2⟩
        · exact Or.inr ⟨jt, List.mem_cons_of_mem _ hjt, he⟩
  intro p hp
  rcases aux items [] p hp with h | ⟨it, hit, he⟩
  · simp at h
  · apply mem_nicknamesOf_aux
    refine Or.inr ⟨it, hit, ?_⟩
    rw [he]

theorem sendScoresStep_credit {GR Item IR Obs K : Type} [DecidableEq K]
    (m : SinkModel GR Item IR Obs K) (users : List (Option String × Option String))
    (sc : List (Option String × Nat))
    (g : (Option String × Option String) × List (SinkReport Item))
    (hu : usersGet users g.1.2 = process_user g.1.2) :
    creditSum (sendScoresStep m users sc g) = creditSum sc + groupCredit m g := by
  unfold sendScoresStep groupCredit
  rw [hu]
  cases hp : process_user g.1.2 with
  | none => simp
  | some u =>
      dsimp only
      rw [creditSum_dictIncr_some]

theorem creditSum_foldl_groups {GR Item IR Obs K : Type} [DecidableEq K]
    (m : SinkModel GR Item IR Obs K) (users : List (Option String × Option String)) :
    ∀ (gs : List ((Option String × Option String) × List (SinkReport Item)))
      (sc : List (Option String × Nat)),
      (∀ g ∈ gs, usersGet users g.1.2 = process_user g.1.2) →
      creditSum (gs.foldl (sendScoresStep m users) sc)
        = creditSum sc + (gs.map (groupCredit m)).sum := by
  intro gs
  induction gs with
  | nil =>
      intro sc _
      simp
  | cons g gs ih =>
      intro sc h
      rw [List.foldl_cons,
          ih _ (fun g2 hg2 => h g2 (List.mem_cons_of_mem _ hg2)),
          sendScoresStep_credit m users sc g (h g (List.mem_cons_self _ _))]
      simp
      omega

/-- C2 amended: for every internal sink batch, the sum of the credited score
values enqueued to update_score equals the sum, over the (api_key, nickname)
groups whose nickname resolved to a userid through the 2 to 128 length
window, of the number of distinct (lat, lon) positions among the reports of
the group that produced at least one valid observation. It does not in
general equal the number of such reports, because positions is a set: see
the counterexample with two reports at the same position. -/
theorem score_sum_eq_group_positions {GR Item IR Obs K : Type}
    [DecidableEq K] [DecidableEq Item]
    (m : SinkModel GR Item IR Obs K) (items : List (SinkItem Item)) :
    scoreSum (sendScoreQueue m items)
      = ((sendGroups items).map (groupCredit m)).sum := by
  have husers : ∀ g ∈ sendGroups items,
      usersGet (initUsersScores (nicknamesOf items)).1 g.1.2 = process_user g.1.2 := by
    intro g hg
    exact usersGet_init_of_mem _ _ (sendGroups_nickname_mem items g hg)
  have hzero : creditSum (initUsersScores (nicknamesOf items)).2 = 0 :=
    creditSum_zero (initUsersScores_scores_zero (nicknamesOf items) ([], []) (by simp))
  rw [sendScoreQueue_eq_creditSum]
  show creditSum ((sendGroups items).foldl
      (sendScoresStep m (initUsersScores (nicknamesOf items)).1)
      (initUsersScores (nicknamesOf items)).2) = _
  rw [creditSum_foldl_groups m _ (sendGroups items) _ husers, hzero]
  simp

/-- Witness for C2 at the concrete model and batch of the counterexample. -/
theorem score_sum_eq_group_positions_witness :
    scoreSum (sendScoreQueue cexModel
      [{ api_key := some "A", nickname := some "alice", report := cexReport }])
      = ((sendGroups
          [{ api_key := some "A", nickname := some "alice", report := cexReport }]).map
            (groupCredit cexModel)).sum :=
  score_sum_eq_group_positions cexModel
    [{ api_key := some "A", nickname := some "alice", report := cexReport }]


end Ichnaea
